import Mathlib

/-
Shallow embedding of argh.h (adishavit/argh), a single-header C++ command
line argument parser.  Strings are modelled as lists of characters.  The
C++ functions that can throw (trim_leading_dashes calls substr with the
result of find_first_not_of, which is npos when the string is all dashes,
and substr raises std::out_of_range for positions past the end) are
modelled with Option, where none stands for the raised exception.
-/

abbrev Str := List Char

/-- Convert a Lean string literal to the character-list model of C++
std::string values. -/
def tok (s : String) : Str := s.toList

/-- Whitespace characters skipped by formatted istream extraction in the
default locale. -/
def isSpaceChar (c : Char) : Bool :=
  c = ' ' || c = '\t' || c = '\n' || c = '\r' || c = '\x0b' || c = '\x0c'

/-- After the exponent letter of a float literal, an optional sign must be
followed by at least one digit for the accumulated field to convert. -/
def leadingDigit (cs : Str) : Bool :=
  match cs with
  | c :: _ => c.isDigit
  | [] => false

/-- Scan of the exponent tail (after the letter e or E): optional sign,
then at least one digit is required. -/
def scanExpTail (cs : Str) : Bool :=
  match cs with
  | '+' :: rest => leadingDigit rest
  | '-' :: rest => leadingDigit rest
  | _ => leadingDigit cs

/-- Grammar-directed scan of the mantissa of a decimal float literal, as
performed by istream double extraction: digits interleaved with at most
one decimal point, optionally followed by an exponent part.  The scan
stops at the first character that cannot extend the literal; the result
tells whether the accumulated prefix converts to a double (at least one
mantissa digit, and digits after the exponent letter when present). -/
def scanMantissa : Str → Bool → Bool → Bool
  | [], seenDig, _ => seenDig
  | c :: rest, seenDig, seenPt =>
    if c.isDigit then scanMantissa rest true seenPt
    else if c = '.' && !seenPt then scanMantissa rest seenDig true
    else if c = 'e' || c = 'E' then seenDig && scanExpTail rest
    else seenDig

/-- Model of parser::is_number from argh.h: construct an istringstream on
the argument, extract a double, and report success.  Formatted extraction
skips leading whitespace, then performs a permissive leading-prefix read
of a signed decimal float literal; trailing garbage after a convertible
prefix does not cause failure.  (Hexadecimal floats, infinities, NaNs and
out-of-range exponents are outside the modelled grammar; no claim
depends on them.) -/
def isNumber (arg : Str) : Bool :=
  match arg.dropWhile isSpaceChar with
  | '+' :: rest => scanMantissa rest false false
  | '-' :: rest => scanMantissa rest false false
  | cs => scanMantissa cs false false

/-- Model of parser::is_option from argh.h: a token is an option when it
is not a number and its first character is a dash.  (For the empty string
operator[] yields the null character, which is not a dash, so the empty
token is not an option; the debug assert is not modelled.) -/
def isOption (arg : Str) : Bool :=
  if isNumber arg then false
  else arg.head? == some '-'

/-- Model of std::string::find_first_not_of: index of the first character
different from the given one, none standing for npos. -/
def findFirstNotOf : Str → Char → Option Nat
  | [], _ => none
  | c :: rest, d => if c = d then (findFirstNotOf rest d).map (· + 1) else some 0

/-- Model of std::string::find: index of the first occurrence of the given
character, none standing for npos. -/
def findFirstOf : Str → Char → Option Nat
  | [], _ => none
  | c :: rest, d => if c = d then some 0 else (findFirstOf rest d).map (· + 1)

/-- Model of parser::trim_leading_dashes from argh.h: substr at the first
non-dash position.  When the name consists only of dashes (or is empty),
find_first_not_of yields npos and substr(npos) raises std::out_of_range,
modelled as none. -/
def trimLeadingDashes (name : Str) : Option Str :=
  match findFirstNotOf name '-' with
  | some pos => some (name.drop pos)
  | none => none

/-- Key membership in the association-list model of std::map. -/
def mapContainsKey : List (Str × Str) → Str → Bool
  | [], _ => false
  | (k, _) :: rest, key => k == key || mapContainsKey rest key

/-- Model of std::map::insert: when the key is already present the map is
unchanged (insert does not overwrite); otherwise the pair is added. -/
def mapInsert (m : List (Str × Str)) (k v : Str) : List (Str × Str) :=
  if mapContainsKey m k then m else m ++ [(k, v)]

/-- Model of std::map::find followed by reading the mapped value. -/
def mapFind : List (Str × Str) → Str → Option Str
  | [], _ => none
  | (k, v) :: rest, key => if k == key then some v else mapFind rest key

/-- Membership in the list model of std::set of strings. -/
def setContains : List Str → Str → Bool
  | [], _ => false
  | s :: rest, key => s == key || setContains rest key

/-- Model of std::set::insert: add the element unless already present. -/
def setInsert (s : List Str) (k : Str) : List Str :=
  if setContains s k then s else s ++ [k]

/-- Mode bit PREFER_FLAG_FOR_UNREG_OPTION from the parser::Mode enum. -/
def PREFER_FLAG_FOR_UNREG_OPTION : Nat := 1

/-- Mode bit PREFER_PARAM_FOR_UNREG_OPTION from the parser::Mode enum. -/
def PREFER_PARAM_FOR_UNREG_OPTION : Nat := 2

/-- Mode bit NO_SPLIT_ON_EQUALSIGN from the parser::Mode enum. -/
def NO_SPLIT_ON_EQUALSIGN : Nat := 4

/-- Mode bit SINGLE_DASH_IS_MULTIFLAG from the parser::Mode enum. -/
def SINGLE_DASH_IS_MULTIFLAG : Nat := 8

/-- Test of a mode bit, as the C++ code does with bitwise and. -/
def hasBit (mode bit : Nat) : Bool := mode &&& bit != 0

/-- The three collections mutated by the parsing loop of parser::parse:
params_ (std::map), pos_args_ (std::vector) and flags_ (std::multiset,
kept as the list of insertions). -/
structure PState where
  params : List (Str × Str)
  pos_args : List Str
  flags : List Str
deriving DecidableEq, Repr

/-- The per-character flags inserted by the SINGLE_DASH_IS_MULTIFLAG block
of parser::parse: when the token had exactly one leading dash, the mode
bit is set and the name is unregistered, every character of the name is
inserted as a flag; otherwise nothing is inserted. -/
def multiFlagsFor (mode : Nat) (reg : List Str) (a name : Str) : List Str :=
  if a.length - name.length == 1 && hasBit mode SINGLE_DASH_IS_MULTIFLAG
       && !(setContains reg name) then
    name.map (fun c => [c])
  else []

/-- The parsing loop of parser::parse from argh.h, transcribed branch by
branch.  Non-options are appended to pos_args_.  Options are trimmed of
leading dashes (none propagates the std::out_of_range raised there).
Unless NO_SPLIT_ON_EQUALSIGN is set, a name containing an equal sign is
split into a parameter at the first equal sign.  Then the multi-flag
block may insert per-character flags.  A final option, or one followed by
another option, becomes a flag.  Otherwise a registered name, or any name
under PREFER_PARAM_FOR_UNREG_OPTION, takes the next token as its value
and skips it; under PREFER_FLAG_FOR_UNREG_OPTION the name becomes a flag;
with neither bit, nothing is recorded. -/
def parseLoop (mode : Nat) (reg : List Str) : List Str → PState → Option PState
  | [], st => some st
  | a :: rest, st =>
    if isOption a = false then
      parseLoop mode reg rest { st with pos_args := st.pos_args ++ [a] }
    else
      match trimLeadingDashes a with
      | none => none
      | some name =>
        match (if hasBit mode NO_SPLIT_ON_EQUALSIGN then none else findFirstOf name '=') with
        | some eqPos =>
          parseLoop mode reg rest
            { st with params := mapInsert st.params (name.take eqPos) (name.drop (eqPos + 1)) }
        | none =>
          let st1 := { st with flags := st.flags ++ multiFlagsFor mode reg a name }
          match rest with
          | [] => some { st1 with flags := st1.flags ++ [name] }
          | b :: rest2 =>
            if isOption b then
              parseLoop mode reg (b :: rest2) { st1 with flags := st1.flags ++ [name] }
            else if setContains reg name || hasBit mode PREFER_PARAM_FOR_UNREG_OPTION then
              parseLoop mode reg rest2 { st1 with params := mapInsert st1.params name b }
            else if hasBit mode PREFER_FLAG_FOR_UNREG_OPTION then
              parseLoop mode reg (b :: rest2) { st1 with flags := st1.flags ++ [name] }
            else
              parseLoop mode reg (b :: rest2) st1

/-- The full parser object: args_, params_, pos_args_, flags_ and
registeredParams_, as in the private section of class parser. -/
structure Parser where
  args : List Str
  params : List (Str × Str)
  pos_args : List Str
  flags : List Str
  registeredParams : List Str
deriving DecidableEq, Repr

/-- A parser with no state, as produced by the default constructor. -/
def emptyParser : Parser :=
  { args := [], params := [], pos_args := [], flags := [], registeredParams := [] }

/-- A parser whose only state is a set of registered parameter names. -/
def freshWithReg (reg : List Str) : Parser :=
  { args := [], params := [], pos_args := [], flags := [], registeredParams := reg }

/-- Model of parser::parse from argh.h: args_ is replaced by the new
token vector, then the parsing loop runs on top of the existing params_,
pos_args_ and flags_ (the method never clears them).  none models an
exception escaping from the loop. -/
def parse (p : Parser) (tokens : List Str) (mode : Nat) : Option Parser :=
  (parseLoop mode p.registeredParams tokens ⟨p.params, p.pos_args, p.flags⟩).map
    fun st =>
      { args := tokens, params := st.params, pos_args := st.pos_args,
        flags := st.flags, registeredParams := p.registeredParams }

/-- Model of parser::add_param from argh.h: the name is trimmed of leading
dashes and inserted into registeredParams_; none models the
std::out_of_range raised by trimming an all-dash name. -/
def addParam (p : Parser) (name : Str) : Option Parser :=
  (trimLeadingDashes name).map
    fun n => { p with registeredParams := setInsert p.registeredParams n }

/-- Model of the string_stream values handed out by the accessors: either
a stream over a string, or a stream with failbit set (bad_stream). -/
inductive StrStream where
  | ok (s : Str) : StrStream
  | bad : StrStream
deriving DecidableEq, Repr

/-- Model of bool parser::operator[](std::string const): trim the queried
name (none models the exception raised on all-dash or empty names) and
test membership in flags_. -/
def flagQuery (p : Parser) (name : Str) : Option Bool :=
  (trimLeadingDashes name).map fun n => setContains p.flags n

/-- Model of string_stream parser::operator()(std::string const): an empty
name yields bad_stream at once; otherwise the trimmed name (none models
the exception on all-dash names) is looked up in params_, giving a stream
over the stored value, or bad_stream when absent. -/
def paramQuery (p : Parser) (name : Str) : Option StrStream :=
  if name.isEmpty then some .bad
  else
    (trimLeadingDashes name).map fun n =>
      match mapFind p.params n with
      | none => .bad
      | some v => .ok v

/-- Model of the default-value overload of parser::operator(): an empty
name, or an absent trimmed name, yields a stream over the default value;
a present name yields a stream over the stored raw value, ignoring the
default.  The default is modelled already converted to its string form. -/
def paramQueryDef (p : Parser) (name : Str) (defVal : Str) : Option StrStream :=
  if name.isEmpty then some (.ok defVal)
  else
    (trimLeadingDashes name).map fun n =>
      match mapFind p.params n with
      | none => .ok defVal
      | some v => .ok v

/-- What an iteration of the parsing loop records for the option (or
positional) token at which it starts. -/
inductive Eff where
  | positional : Eff
  | flagE (name : Str) : Eff
  | paramEq (k v : Str) : Eff
  | paramNext (name value : Str) : Eff
  | droppedE (name : Str) : Eff
deriving DecidableEq, Repr

/-- Classification record of one iteration of the parsing loop: the token
at which the iteration started, the per-character flags inserted by the
multi-flag block, and the main effect. -/
structure IterEffect where
  tok : Str
  multi : List Str
  eff : Eff
deriving DecidableEq, Repr

/-- Instrumented copy of the parsing loop that records, instead of the
final state, what each iteration did.  The branching is identical to
parseLoop; the classification decisions never depend on the accumulated
params_, pos_args_ or flags_. -/
def parseTrace (mode : Nat) (reg : List Str) : List Str → Option (List IterEffect)
  | [] => some []
  | a :: rest =>
    if isOption a = false then
      (parseTrace mode reg rest).map (⟨a, [], .positional⟩ :: ·)
    else
      match trimLeadingDashes a with
      | none => none
      | some name =>
        match (if hasBit mode NO_SPLIT_ON_EQUALSIGN then none else findFirstOf name '=') with
        | some eqPos =>
          (parseTrace mode reg rest).map
            (⟨a, [], .paramEq (name.take eqPos) (name.drop (eqPos + 1))⟩ :: ·)
        | none =>
          let multi := multiFlagsFor mode reg a name
          match rest with
          | [] => some [⟨a, multi, .flagE name⟩]
          | b :: rest2 =>
            if isOption b then
              (parseTrace mode reg (b :: rest2)).map (⟨a, multi, .flagE name⟩ :: ·)
            else if setContains reg name || hasBit mode PREFER_PARAM_FOR_UNREG_OPTION then
              (parseTrace mode reg rest2).map (⟨a, multi, .paramNext name b⟩ :: ·)
            else if hasBit mode PREFER_FLAG_FOR_UNREG_OPTION then
              (parseTrace mode reg (b :: rest2)).map (⟨a, multi, .flagE name⟩ :: ·)
            else
              (parseTrace mode reg (b :: rest2)).map (⟨a, multi, .droppedE name⟩ :: ·)

/-- Replay of one recorded iteration on the loop state. -/
def applyIter (st : PState) (e : IterEffect) : PState :=
  match e.eff with
  | .positional => { st with pos_args := st.pos_args ++ [e.tok] }
  | .flagE n => { st with flags := st.flags ++ e.multi ++ [n] }
  | .paramEq k v => { st with params := mapInsert st.params k v, flags := st.flags ++ e.multi }
  | .paramNext n v => { st with params := mapInsert st.params n v, flags := st.flags ++ e.multi }
  | .droppedE _ => { st with flags := st.flags ++ e.multi }

/-- The input tokens covered by one recorded iteration: the token at which
it started, plus the following token when it was consumed as a parameter
value. -/
def effTokens (e : IterEffect) : List Str :=
  e.tok :: (match e.eff with | .paramNext _ v => [v] | _ => [])

/-- The input tokens covered by a trace, in order. -/
def flattenTrace : List IterEffect → List Str
  | [] => []
  | e :: tr => effTokens e ++ flattenTrace tr

/-- The parameter insertion attempted by one recorded iteration, if any. -/
def effParamAttempt (e : IterEffect) : List (Str × Str) :=
  match e.eff with
  | .paramEq k v => [(k, v)]
  | .paramNext n v => [(n, v)]
  | _ => []

/-- All parameter insertions attempted along a trace, in order. -/
def paramAttempts : List IterEffect → List (Str × Str)
  | [] => []
  | e :: tr => effParamAttempt e ++ paramAttempts tr

/-- The flags inserted by one recorded iteration: a positional token
inserts none; an option token inserts its multi-flag characters, plus the
whole trimmed name when the iteration classified it as a flag. -/
def effFlags (e : IterEffect) : List Str :=
  match e.eff with
  | .positional => []
  | .flagE n => e.multi ++ [n]
  | .paramEq _ _ => e.multi
  | .paramNext _ _ => e.multi
  | .droppedE _ => e.multi

/-- All flags inserted along a trace, in order. -/
def flagsAdded : List IterEffect → List Str
  | [] => []
  | e :: tr => effFlags e ++ flagsAdded tr

/-- The positional arguments recorded by one iteration. -/
def effPos (e : IterEffect) : List Str :=
  match e.eff with
  | .positional => [e.tok]
  | _ => []

/-- All positional arguments recorded along a trace, in order. -/
def posAdded : List IterEffect → List Str
  | [] => []
  | e :: tr => effPos e ++ posAdded tr

/-- Whether the iteration put its token into the flag category (as the
whole-name flag or as per-character multi-flags). -/
def touchesFlagCat (e : IterEffect) : Bool :=
  !e.multi.isEmpty ||
    (match e.eff with | .flagE _ => true | _ => false)

/-- Whether the iteration put its token into the parameter category. -/
def touchesParamCat (e : IterEffect) : Bool :=
  match e.eff with
  | .paramEq _ _ => true
  | .paramNext _ _ => true
  | _ => false

/-- Whether the iteration put its token into the positional category. -/
def touchesPosCat (e : IterEffect) : Bool :=
  match e.eff with
  | .positional => true
  | _ => false

/-- The token of this iteration was recorded in exactly one of the three
categories positional, flag, parameter. -/
def exactlyOneCategory (e : IterEffect) : Bool :=
  (cond (touchesFlagCat e) 1 0) + (cond (touchesParamCat e) 1 0)
    + (cond (touchesPosCat e) 1 0) == 1

/-- Whether parsing succeeded and every iteration classified its token in
exactly one category. -/
def allExactlyOne (mode : Nat) (reg : List Str) (toks : List Str) : Option Bool :=
  (parseTrace mode reg toks).map (List.all · exactlyOneCategory)

/-- First-of-two on options: keep the left value when present, else the
right one (the lookup behaviour of a map built by non-overwriting
inserts). -/
def optFirst (a b : Option Str) : Option Str :=
  match a with
  | some x => some x
  | none => b

/-- Sample parser used to instantiate theorems with hypotheses: one stored
parameter c with the non-numeric value B. -/
def sampleParser : Parser :=
  { args := [], params := [(tok "c", tok "B")], pos_args := [],
    flags := [], registeredParams := [] }

/-- Sample parser with accumulated state in every collection, used to
instantiate the re-parsing accumulation theorem. -/
def sampleParser2 : Parser :=
  { args := [], params := [(tok "k", tok "v")], pos_args := [tok "p"],
    flags := [tok "fl"], registeredParams := [] }

/-- Structural facts holding of every recorded iteration: per-character
multi-flags appear only under SINGLE_DASH_IS_MULTIFLAG; a token is
dropped (recorded nowhere) only when neither prefer bit is set; and an
iteration is positional exactly when its token is not an option. -/
def TraceInv (mode : Nat) (e : IterEffect) : Prop :=
  (hasBit mode SINGLE_DASH_IS_MULTIFLAG = false → e.multi = []) ∧
  ((∃ n, e.eff = Eff.droppedE n) →
    hasBit mode PREFER_FLAG_FOR_UNREG_OPTION = false ∧
    hasBit mode PREFER_PARAM_FOR_UNREG_OPTION = false) ∧
  (e.eff = Eff.positional ↔ isOption e.tok = false)

/-
Helper lemmas about normalization (trim_leading_dashes).
-/

theorem trim_cons_dash (x : Str) :
    trimLeadingDashes ('-' :: x) = trimLeadingDashes x := by
  cases h : findFirstNotOf x '-' with
  | none => simp [trimLeadingDashes, findFirstNotOf, h]
  | some p => simp [trimLeadingDashes, findFirstNotOf, h]

theorem trim_head_ne (c : Char) (x : Str) (h : ¬ c = '-') :
    trimLeadingDashes (c :: x) = some (c :: x) := by
  simp [trimLeadingDashes, findFirstNotOf, h]

theorem trim_idem : ∀ x r, trimLeadingDashes x = some r → trimLeadingDashes r = some r := by
  intro x
  induction x with
  | nil => intro r h; simp [trimLeadingDashes, findFirstNotOf] at h
  | cons c x ih =>
    intro r h
    by_cases hc : c = '-'
    · subst hc
      rw [trim_cons_dash] at h
      exact ih r h
    · rw [trim_head_ne c x hc] at h
      injection h with h2
      subst h2
      exact trim_head_ne c x hc

/-
Helper lemmas about the association-list model of std::map.
-/

theorem optFirst_assoc (a b c : Option Str) :
    optFirst (optFirst a b) c = optFirst a (optFirst b c) := by
  cases a <;> rfl

theorem optFirst_none_right (a : Option Str) : optFirst a none = a := by
  cases a <;> rfl

theorem mapContainsKey_iff_find (m : List (Str × Str)) (k : Str) :
    mapContainsKey m k = true ↔ (mapFind m k).isSome := by
  induction m with
  | nil => simp [mapContainsKey, mapFind]
  | cons kv m ih =>
    obtain ⟨a, b⟩ := kv
    by_cases h : a == k
    · simp [mapContainsKey, mapFind, h]
    · simp only [mapContainsKey, mapFind, h]
      simpa using ih

theorem mapFind_append (m1 m2 : List (Str × Str)) (k : Str) :
    mapFind (m1 ++ m2) k = optFirst (mapFind m1 k) (mapFind m2 k) := by
  induction m1 with
  | nil => simp [mapFind, optFirst]
  | cons kv m1 ih =>
    obtain ⟨a, b⟩ := kv
    by_cases h : a == k
    · simp [mapFind, h, optFirst]
    · simp [mapFind, h, ih]

theorem mapFind_mapInsert (m : List (Str × Str)) (a b k : Str) :
    mapFind (mapInsert m a b) k
      = optFirst (mapFind m k) (if a == k then some b else none) := by
  unfold mapInsert
  by_cases h : mapContainsKey m a
  · rw [if_pos h]
    by_cases hak : a == k
    · have hk : a = k := by simpa using hak
      subst hk
      have : (mapFind m a).isSome := (mapContainsKey_iff_find m a).mp h
      cases hf : mapFind m a with
      | none => rw [hf] at this; simp at this
      | some v => simp [hf, hak, optFirst]
    · cases hf : mapFind m k with
      | none => simp [hf, hak, optFirst]
      | some v => simp [hf, hak, optFirst]
  · rw [if_neg h]
    rw [mapFind_append]
    simp [mapFind]

theorem mapFind_foldl_ins (l : List (Str × Str)) (m : List (Str × Str)) (k : Str) :
    mapFind (l.foldl (fun acc kv => mapInsert acc kv.1 kv.2) m) k
      = optFirst (mapFind m k) (mapFind l k) := by
  induction l generalizing m with
  | nil => simp [mapFind, optFirst_none_right]
  | cons kv l ih =>
    obtain ⟨a, b⟩ := kv
    simp only [List.foldl_cons]
    rw [ih, mapFind_mapInsert, optFirst_assoc]
    congr 1
    by_cases h : a == k <;> simp [mapFind, h, optFirst]

/-
Helper lemmas about replaying a trace.
-/

theorem applyIter_params (st : PState) (e : IterEffect) :
    (applyIter st e).params
      = (effParamAttempt e).foldl (fun acc kv => mapInsert acc kv.1 kv.2) st.params := by
  obtain ⟨t, mu, ef⟩ := e
  cases ef <;> rfl

theorem applyIter_pos (st : PState) (e : IterEffect) :
    (applyIter st e).pos_args = st.pos_args ++ effPos e := by
  obtain ⟨t, mu, ef⟩ := e
  cases ef <;> simp [applyIter, effPos]

theorem applyIter_flags (st : PState) (e : IterEffect) :
    (applyIter st e).flags = st.flags ++ effFlags e := by
  obtain ⟨t, mu, ef⟩ := e
  cases ef <;> simp [applyIter, effFlags]

theorem foldl_applyIter_params (tr : List IterEffect) (st : PState) :
    (tr.foldl applyIter st).params
      = (paramAttempts tr).foldl (fun acc kv => mapInsert acc kv.1 kv.2) st.params := by
  induction tr generalizing st with
  | nil => rfl
  | cons e tr ih =>
    simp only [List.foldl_cons, paramAttempts, List.foldl_append]
    rw [ih, applyIter_params]

theorem foldl_applyIter_pos (tr : List IterEffect) (st : PState) :
    (tr.foldl applyIter st).pos_args = st.pos_args ++ posAdded tr := by
  induction tr generalizing st with
  | nil => simp [posAdded]
  | cons e tr ih =>
    simp only [List.foldl_cons, posAdded]
    rw [ih, applyIter_pos, List.append_assoc]

theorem foldl_applyIter_flags (tr : List IterEffect) (st : PState) :
    (tr.foldl applyIter st).flags = st.flags ++ flagsAdded tr := by
  induction tr generalizing st with
  | nil => simp [flagsAdded]
  | cons e tr ih =>
    simp only [List.foldl_cons, flagsAdded]
    rw [ih, applyIter_flags, List.append_assoc]

theorem bool_true_of_not_false {b : Bool} (h : ¬ b = false) : b = true := by
  cases b
  · exact absurd rfl h
  · rfl

theorem multiFlagsFor_nil_of_bit_off (mode : Nat) (reg : List Str) (a name : Str)
    (h : hasBit mode SINGLE_DASH_IS_MULTIFLAG = false) :
    multiFlagsFor mode reg a name = [] := by
  simp [multiFlagsFor, h]

/-
The bridge between the parsing loop and its instrumented trace: running
the loop from any state is the same as computing the trace and replaying
it on that state.
-/

theorem parseLoop_eq_replay (mode : Nat) (reg : List Str) (toks : List Str) (st : PState) :
    parseLoop mode reg toks st
      = (parseTrace mode reg toks).map (fun tr => tr.foldl applyIter st) := by
  induction toks, st using parseLoop.induct mode reg with
  | case1 st =>
    simp [parseLoop, parseTrace]
  | case2 a rest st hopt ih =>
    rw [parseLoop, parseTrace]
    simp only [hopt, if_true, reduceIte]
    rw [ih]
    cases parseTrace mode reg rest <;> simp [applyIter]
  | case3 a rest st hopt htrim =>
    rw [parseLoop, parseTrace]
    simp [bool_true_of_not_false hopt, htrim]
  | case4 a rest st hopt name htrim eqPos heq ih =>
    rw [parseLoop, parseTrace]
    simp only [bool_true_of_not_false hopt, Bool.true_eq_false, if_false, reduceIte, htrim, heq]
    rw [ih]
    cases parseTrace mode reg rest <;> simp [applyIter]
  | case5 a st hopt name htrim heq =>
    rw [parseLoop, parseTrace]
    simp [bool_true_of_not_false hopt, htrim, heq, applyIter]
  | case6 a st hopt name htrim heq st1 b rest2 hb ih =>
    rw [parseLoop, parseTrace]
    simp only [bool_true_of_not_false hopt, Bool.true_eq_false, if_false, reduceIte, htrim, heq, hb]
    simp only [List.append_assoc] at ih ⊢
    rw [ih]
    cases parseTrace mode reg (b :: rest2) <;> simp [applyIter]
  | case7 a st hopt name htrim heq st1 b rest2 hb hreg ih =>
    rw [parseLoop, parseTrace]
    have hb' : isOption b = false := by
      cases hq : isOption b
      · rfl
      · exact absurd hq hb
    simp only [bool_true_of_not_false hopt, Bool.true_eq_false, if_false, reduceIte, htrim, heq,
      hb', hreg, Bool.false_eq_true]
    simp only [List.append_assoc] at ih ⊢
    rw [ih]
    cases parseTrace mode reg rest2 <;> simp [applyIter]
  | case8 a st hopt name htrim heq st1 b rest2 hb hreg hflag ih =>
    rw [parseLoop, parseTrace]
    have hb' : isOption b = false := by
      cases hq : isOption b
      · rfl
      · exact absurd hq hb
    have hreg' : (setContains reg name || hasBit mode PREFER_PARAM_FOR_UNREG_OPTION) = false := by
      cases hq : (setContains reg name || hasBit mode PREFER_PARAM_FOR_UNREG_OPTION)
      · rfl
      · exact absurd hq hreg
    simp only [bool_true_of_not_false hopt, Bool.true_eq_false, if_false, reduceIte, htrim, heq,
      hb', hreg', hflag, Bool.false_eq_true]
    simp only [List.append_assoc] at ih ⊢
    rw [ih]
    cases parseTrace mode reg (b :: rest2) <;> simp [applyIter]
  | case9 a st hopt name htrim heq st1 b rest2 hb hreg hflag ih =>
    rw [parseLoop, parseTrace]
    have hb' : isOption b = false := by
      cases hq : isOption b
      · rfl
      · exact absurd hq hb
    have hreg' : (setContains reg name || hasBit mode PREFER_PARAM_FOR_UNREG_OPTION) = false := by
      cases hq : (setContains reg name || hasBit mode PREFER_PARAM_FOR_UNREG_OPTION)
      · rfl
      · exact absurd hq hreg
    have hflag' : hasBit mode PREFER_FLAG_FOR_UNREG_OPTION = false := by
      cases hq : hasBit mode PREFER_FLAG_FOR_UNREG_OPTION
      · rfl
      · exact absurd hq hflag
    simp only [bool_true_of_not_false hopt, Bool.true_eq_false, if_false, reduceIte, htrim, heq,
      hb', hreg', hflag', Bool.false_eq_true]
    simp only [List.append_assoc] at ih ⊢
    rw [ih]
    cases parseTrace mode reg (b :: rest2) <;> simp [applyIter]

/-
Structure of the trace: it covers the input tokens exactly, and each
iteration satisfies the invariant TraceInv.
-/

theorem parseTrace_struct (mode : Nat) (reg : List Str) :
    ∀ (toks : List Str) (tr : List IterEffect), parseTrace mode reg toks = some tr →
      flattenTrace tr = toks ∧ ∀ e ∈ tr, TraceInv mode e := by
  intro toks
  induction toks using parseTrace.induct mode reg with
  | case1 =>
    intro tr h
    rw [parseTrace] at h
    injection h with h2
    subst h2
    simp [flattenTrace]
  | case2 a rest hopt ih =>
    intro tr h
    rw [parseTrace] at h
    simp only [hopt, reduceIte] at h
    obtain ⟨tr0, htr0, rfl⟩ := Option.map_eq_some'.mp h
    obtain ⟨hflat, hinv⟩ := ih tr0 htr0
    refine ⟨by simp [flattenTrace, effTokens, hflat], ?_⟩
    intro e he
    rcases List.mem_cons.mp he with rfl | he2
    · refine ⟨fun _ => rfl, ?_, ?_⟩
      · rintro ⟨n, hn⟩
        cases hn
      · simp [hopt]
    · exact hinv e he2
  | case3 a rest hopt htrim =>
    intro tr h
    rw [parseTrace] at h
    simp [bool_true_of_not_false hopt, htrim] at h
  | case4 a rest hopt name htrim eqPos heq ih =>
    intro tr h
    rw [parseTrace] at h
    simp only [bool_true_of_not_false hopt, Bool.true_eq_false, reduceIte, htrim, heq] at h
    obtain ⟨tr0, htr0, rfl⟩ := Option.map_eq_some'.mp h
    obtain ⟨hflat, hinv⟩ := ih tr0 htr0
    refine ⟨by simp [flattenTrace, effTokens, hflat], ?_⟩
    intro e he
    rcases List.mem_cons.mp he with rfl | he2
    · refine ⟨fun _ => rfl, ?_, ?_⟩
      · rintro ⟨n, hn⟩
        cases hn
      · constructor
        · intro hpos
          cases hpos
        · intro hpos
          rw [bool_true_of_not_false hopt] at hpos
          cases hpos
    · exact hinv e he2
  | case5 a hopt name htrim heq =>
    intro tr h
    rw [parseTrace] at h
    simp only [bool_true_of_not_false hopt, Bool.true_eq_false, reduceIte, htrim, heq] at h
    injection h with h2
    subst h2
    refine ⟨by simp [flattenTrace, effTokens], ?_⟩
    intro e he
    rcases List.mem_cons.mp he with rfl | he2
    · refine ⟨fun hb => multiFlagsFor_nil_of_bit_off mode reg a name hb, ?_, ?_⟩
      · rintro ⟨n, hn⟩
        cases hn
      · constructor
        · intro hpos
          cases hpos
        · intro hpos
          rw [bool_true_of_not_false hopt] at hpos
          cases hpos
    · cases he2
  | case6 a hopt name htrim heq b rest2 hb ih =>
    intro tr h
    rw [parseTrace] at h
    simp only [bool_true_of_not_false hopt, Bool.true_eq_false, reduceIte, htrim, heq, hb] at h
    obtain ⟨tr0, htr0, rfl⟩ := Option.map_eq_some'.mp h
    obtain ⟨hflat, hinv⟩ := ih tr0 htr0
    refine ⟨by simp [flattenTrace, effTokens, hflat], ?_⟩
    intro e he
    rcases List.mem_cons.mp he with rfl | he2
    · refine ⟨fun hbit => multiFlagsFor_nil_of_bit_off mode reg a name hbit, ?_, ?_⟩
      · rintro ⟨n, hn⟩
        cases hn
      · constructor
        · intro hpos
          cases hpos
        · intro hpos
          rw [bool_true_of_not_false hopt] at hpos
          cases hpos
    · exact hinv e he2
  | case7 a hopt name htrim heq b rest2 hb hreg ih =>
    intro tr h
    rw [parseTrace] at h
    have hb' : isOption b = false := by
      cases hq : isOption b
      · rfl
      · exact absurd hq hb
    simp only [bool_true_of_not_false hopt, Bool.true_eq_false, reduceIte, htrim, heq,
      hb', hreg, Bool.false_eq_true] at h
    obtain ⟨tr0, htr0, rfl⟩ := Option.map_eq_some'.mp h
    obtain ⟨hflat, hinv⟩ := ih tr0 htr0
    refine ⟨by simp [flattenTrace, effTokens, hflat], ?_⟩
    intro e he
    rcases List.mem_cons.mp he with rfl | he2
    · refine ⟨fun hbit => multiFlagsFor_nil_of_bit_off mode reg a name hbit, ?_, ?_⟩
      · rintro ⟨n, hn⟩
        cases hn
      · constructor
        · intro hpos
          cases hpos
        · intro hpos
          rw [bool_true_of_not_false hopt] at hpos
          cases hpos
    · exact hinv e he2
  | case8 a hopt name htrim heq b rest2 hb hreg hflag ih =>
    intro tr h
    rw [parseTrace] at h
    have hb' : isOption b = false := by
      cases hq : isOption b
      · rfl
      · exact absurd hq hb
    have hreg' : (setContains reg name || hasBit mode PREFER_PARAM_FOR_UNREG_OPTION) = false := by
      cases hq : (setContains reg name || hasBit mode PREFER_PARAM_FOR_UNREG_OPTION)
      · rfl
      · exact absurd hq hreg
    simp only [bool_true_of_not_false hopt, Bool.true_eq_false, reduceIte, htrim, heq,
      hb', hreg', hflag, Bool.false_eq_true] at h
    obtain ⟨tr0, htr0, rfl⟩ := Option.map_eq_some'.mp h
    obtain ⟨hflat, hinv⟩ := ih tr0 htr0
    refine ⟨by simp [flattenTrace, effTokens, hflat], ?_⟩
    intro e he
    rcases List.mem_cons.mp he with rfl | he2
    · refine ⟨fun hbit => multiFlagsFor_nil_of_bit_off mode reg a name hbit, ?_, ?_⟩
      · rintro ⟨n, hn⟩
        cases hn
      · constructor
        · intro hpos
          cases hpos
        · intro hpos
          rw [bool_true_of_not_false hopt] at hpos
          cases hpos
    · exact hinv e he2
  | case9 a hopt name htrim heq b rest2 hb hreg hflag ih =>
    intro tr h
    rw [parseTrace] at h
    have hb' : isOption b = false := by
      cases hq : isOption b
      · rfl
      · exact absurd hq hb
    have hreg' : (setContains reg name || hasBit mode PREFER_PARAM_FOR_UNREG_OPTION) = false := by
      cases hq : (setContains reg name || hasBit mode PREFER_PARAM_FOR_UNREG_OPTION)
      · rfl
      · exact absurd hq hreg
    have hflag' : hasBit mode PREFER_FLAG_FOR_UNREG_OPTION = false := by
      cases hq : hasBit mode PREFER_FLAG_FOR_UNREG_OPTION
      · rfl
      · exact absurd hq hflag
    simp only [bool_true_of_not_false hopt, Bool.true_eq_false, reduceIte, htrim, heq,
      hb', hreg', hflag', Bool.false_eq_true] at h
    obtain ⟨tr0, htr0, rfl⟩ := Option.map_eq_some'.mp h
    obtain ⟨hflat, hinv⟩ := ih tr0 htr0
    refine ⟨by simp [flattenTrace, effTokens, hflat], ?_⟩
    intro e he
    rcases List.mem_cons.mp he with rfl | he2
    · refine ⟨fun hbit => multiFlagsFor_nil_of_bit_off mode reg a name hbit, ?_, ?_⟩
      · intro hd
        exact ⟨hflag', by
          cases hor : setContains reg name
          · simp [hor] at hreg'
            exact hreg'
          · simp [hor] at hreg'⟩
      · constructor
        · intro hpos
          cases hpos
        · intro hpos
          rw [bool_true_of_not_false hopt] at hpos
          cases hpos
    · exact hinv e he2

/-
Glue lemmas between parse and the trace.
-/

theorem exactlyOne_of_plain (e : IterEffect) (hm : e.multi = [])
    (hnd : ∀ n, ¬ e.eff = Eff.droppedE n) : exactlyOneCategory e = true := by
  obtain ⟨t, mu, ef⟩ := e
  replace hm : mu = [] := hm
  subst hm
  cases ef
  case positional => rfl
  case flagE n => rfl
  case paramEq k v => rfl
  case paramNext n v => rfl
  case droppedE n => exact absurd rfl (hnd n)

theorem parse_some_elim (p : Parser) (toks : List Str) (mode : Nat) (r : Parser)
    (tr : List IterEffect)
    (hp : parse p toks mode = some r)
    (ht : parseTrace mode p.registeredParams toks = some tr) :
    r.args = toks ∧ r.registeredParams = p.registeredParams ∧
    r.params = (paramAttempts tr).foldl (fun acc kv => mapInsert acc kv.1 kv.2) p.params ∧
    r.pos_args = p.pos_args ++ posAdded tr ∧
    r.flags = p.flags ++ flagsAdded tr := by
  unfold parse at hp
  rw [parseLoop_eq_replay, ht] at hp
  simp only [Option.map_map, Function.comp, Option.map_some'] at hp
  injection hp with h2
  subst h2
  refine ⟨rfl, rfl, ?_, ?_, ?_⟩
  · show (tr.foldl applyIter ⟨p.params, p.pos_args, p.flags⟩).params = _
    rw [foldl_applyIter_params]
  · show (tr.foldl applyIter ⟨p.params, p.pos_args, p.flags⟩).pos_args = _
    rw [foldl_applyIter_pos]
  · show (tr.foldl applyIter ⟨p.params, p.pos_args, p.flags⟩).flags = _
    rw [foldl_applyIter_flags]

theorem parse_some_trace (p : Parser) (toks : List Str) (mode : Nat) (r : Parser)
    (hp : parse p toks mode = some r) :
    ∃ tr, parseTrace mode p.registeredParams toks = some tr := by
  unfold parse at hp
  rw [parseLoop_eq_replay] at hp
  cases h : parseTrace mode p.registeredParams toks with
  | none => rw [h] at hp; simp at hp
  | some tr => exact ⟨tr, rfl⟩

/-
Claim theorems.
-/

/-- Claim C1 counterexample: under SINGLE_DASH_IS_MULTIFLAG together with
PREFER_PARAM_FOR_UNREG_OPTION, the token -ab followed by val is recorded
both as the per-character flags a and b and as the parameter ab with
value val, so it does not appear in exactly one of the categories
positional, flag, parameter: the exactly-one check over the trace comes
out false. -/
theorem claim_C1_counterexample :
    allExactlyOne (SINGLE_DASH_IS_MULTIFLAG + PREFER_PARAM_FOR_UNREG_OPTION) []
        [tok "-ab", tok "val"] = some false ∧
    (parse emptyParser [tok "-ab", tok "val"]
        (SINGLE_DASH_IS_MULTIFLAG + PREFER_PARAM_FOR_UNREG_OPTION)).map
      (fun r => (setContains r.flags (tok "a"), mapFind r.params (tok "ab")))
      = some (true, some (tok "val")) := by
  decide

/-- Claim C1 (amended): for every mode without the SINGLE_DASH_IS_MULTIFLAG
bit and with at least one of the two prefer bits, and for every
registered set and every token vector on which parsing completes, the
recorded trace covers the input tokens exactly and every iteration
classifies its token in exactly one of the categories positional, flag,
parameter (tokens consumed as a parameter value being part of that
parameter record). -/
theorem claim_C1_theorem (mode : Nat) (reg toks : List Str) (tr : List IterEffect)
    (hmulti : hasBit mode SINGLE_DASH_IS_MULTIFLAG = false)
    (hpref : hasBit mode PREFER_FLAG_FOR_UNREG_OPTION = true ∨
             hasBit mode PREFER_PARAM_FOR_UNREG_OPTION = true)
    (htr : parseTrace mode reg toks = some tr) :
    flattenTrace tr = toks ∧ ∀ e ∈ tr, exactlyOneCategory e = true := by
  obtain ⟨hflat, hinv⟩ := parseTrace_struct mode reg toks tr htr
  refine ⟨hflat, ?_⟩
  intro e he
  obtain ⟨hm, hd, _⟩ := hinv e he
  apply exactlyOne_of_plain e (hm hmulti)
  intro n hn
  obtain ⟨h1, h2⟩ := hd ⟨n, hn⟩
  rcases hpref with h | h
  · rw [h1] at h
    exact Bool.noConfusion h
  · rw [h2] at h
    exact Bool.noConfusion h

/-- Claim C1 witness: the amended theorem applied to the default flag
mode on the tokens -x and val. -/
theorem claim_C1_witness :
    flattenTrace
        [⟨tok "-x", [], Eff.flagE (tok "x")⟩, ⟨tok "val", [], Eff.positional⟩]
      = [tok "-x", tok "val"] ∧
    ∀ e ∈ ([⟨tok "-x", [], Eff.flagE (tok "x")⟩,
            ⟨tok "val", [], Eff.positional⟩] : List IterEffect),
      exactlyOneCategory e = true :=
  claim_C1_theorem PREFER_FLAG_FOR_UNREG_OPTION [] [tok "-x", tok "val"]
    [⟨tok "-x", [], Eff.flagE (tok "x")⟩, ⟨tok "val", [], Eff.positional⟩]
    (by decide) (Or.inl (by decide)) (by decide)

/-- Claim C2 (code bug evidence): parsing a token vector containing only
the all-dash token raises std::out_of_range (modelled none) in every mode
and from every prior parser state, because trim_leading_dashes calls
substr(npos); the same happens for the double-dash token. -/
theorem claim_C2_theorem (p : Parser) (mode : Nat) :
    parse p [tok "-"] mode = none ∧ parse p [tok "--"] mode = none := by
  have hopt1 : isOption (tok "-") = true := by decide
  have htrim1 : trimLeadingDashes (tok "-") = none := by decide
  have hopt2 : isOption (tok "--") = true := by decide
  have htrim2 : trimLeadingDashes (tok "--") = none := by decide
  constructor
  · unfold parse
    rw [parseLoop]
    simp [hopt1, htrim1]
  · unfold parse
    rw [parseLoop]
    simp [hopt2, htrim2]

/-- Claim C3 counterexample: with g registered, parsing -g 1 -g 2 stores
the first value 1 for g, not the most recently inserted value 2, because
std::map::insert does not overwrite an existing key. -/
theorem claim_C3_counterexample :
    ((addParam emptyParser (tok "g")).bind fun p =>
        parse p [tok "-g", tok "1", tok "-g", tok "2"]
          PREFER_FLAG_FOR_UNREG_OPTION).map
      (fun r => mapFind r.params (tok "g")) = some (some (tok "1")) ∧
    ((addParam emptyParser (tok "g")).bind fun p =>
        parse p [tok "-g", tok "1", tok "-g", tok "2"]
          PREFER_FLAG_FOR_UNREG_OPTION).map
      (fun r => mapFind r.params (tok "g")) ≠ some (some (tok "2")) := by
  decide

/-- Claim C3 (amended): after any successful parse, the value retrievable
for a name is the previously stored one if the name was already present,
and otherwise the FIRST value recorded for that name during the parse
(std::map::insert keeps the existing entry, so later recordings of the
same name are ignored). -/
theorem claim_C3_theorem (p : Parser) (toks : List Str) (mode : Nat) (r : Parser)
    (tr : List IterEffect) (k : Str)
    (hp : parse p toks mode = some r)
    (ht : parseTrace mode p.registeredParams toks = some tr) :
    mapFind r.params k
      = optFirst (mapFind p.params k) (mapFind (paramAttempts tr) k) := by
  obtain ⟨_, _, hparams, _, _⟩ := parse_some_elim p toks mode r tr hp ht
  rw [hparams, mapFind_foldl_ins]

/-- Claim C3 witness: the amended theorem applied to the duplicate
parameter scenario -g 1 -g 2 with g registered; the retrievable value is
the first attempt. -/
theorem claim_C3_witness :
    mapFind
        ({ args := [tok "-g", tok "1", tok "-g", tok "2"],
           params := [(tok "g", tok "1")], pos_args := [], flags := [],
           registeredParams := [tok "g"] } : Parser).params (tok "g")
      = optFirst (mapFind (freshWithReg [tok "g"]).params (tok "g"))
          (mapFind (paramAttempts
            [⟨tok "-g", [], Eff.paramNext (tok "g") (tok "1")⟩,
             ⟨tok "-g", [], Eff.paramNext (tok "g") (tok "2")⟩]) (tok "g")) :=
  claim_C3_theorem (freshWithReg [tok "g"]) [tok "-g", tok "1", tok "-g", tok "2"]
    PREFER_FLAG_FOR_UNREG_OPTION
    { args := [tok "-g", tok "1", tok "-g", tok "2"],
      params := [(tok "g", tok "1")], pos_args := [], flags := [],
      registeredParams := [tok "g"] }
    [⟨tok "-g", [], Eff.paramNext (tok "g") (tok "1")⟩,
     ⟨tok "-g", [], Eff.paramNext (tok "g") (tok "2")⟩]
    (tok "g") (by decide) (by decide)

/-- Claim C4 counterexample: the negative-number-shaped token -1 is not
always classified as a positional argument: with g registered, in the
default mode, parsing -g -1 leaves no positional argument at all and
stores -1 as the value of parameter g. -/
theorem claim_C4_counterexample :
    isNumber (tok "-1") = true ∧
    ((addParam emptyParser (tok "g")).bind fun p =>
        parse p [tok "-g", tok "-1"] PREFER_FLAG_FOR_UNREG_OPTION).map
      (fun r => (r.pos_args, mapFind r.params (tok "g")))
      = some ([], some (tok "-1")) := by
  decide

/-- Claim C4 (amended): a token is treated as an option exactly when its
first character is a dash and it does not parse as a number under the
permissive leading-prefix read; consequently, in every mode, an iteration
of the parsing loop classifies its token as positional exactly when the
token is not an option, and the trace covers all tokens, so a non-option
token is positional unless it was consumed as the value of the preceding
parameter. -/
theorem claim_C4_theorem :
    (∀ arg : Str, isOption arg = true ↔ (arg.head? = some '-' ∧ isNumber arg = false)) ∧
    (∀ (mode : Nat) (reg toks : List Str) (tr : List IterEffect),
       parseTrace mode reg toks = some tr →
       flattenTrace tr = toks ∧
         ∀ e ∈ tr, (e.eff = Eff.positional ↔ isOption e.tok = false)) := by
  constructor
  · intro arg
    unfold isOption
    by_cases h : isNumber arg = true
    · simp [h]
    · have h' : isNumber arg = false := by
        cases hq : isNumber arg
        · rfl
        · exact absurd hq h
      simp [h']
  · intro mode reg toks tr htr
    obtain ⟨hflat, hinv⟩ := parseTrace_struct mode reg toks tr htr
    exact ⟨hflat, fun e he => (hinv e he).2.2⟩

/-- Claim C4 witness: the amended theorem applied to the single
negative-number token -1, whose trace records it as positional. -/
theorem claim_C4_witness :
    flattenTrace [⟨tok "-1", [], Eff.positional⟩] = [tok "-1"] ∧
    ∀ e ∈ ([⟨tok "-1", [], Eff.positional⟩] : List IterEffect),
      (e.eff = Eff.positional ↔ isOption e.tok = false) :=
  claim_C4_theorem.2 PREFER_FLAG_FOR_UNREG_OPTION [] [tok "-1"]
    [⟨tok "-1", [], Eff.positional⟩] (by decide)

/-- Claim C5: on the token vector -d -f 123 -g 456 -e with g registered
as a parameter and the default mode, d, f and e are flags, the value
query for f reports absence (failed stream), the value query for g
yields 456, and 123 is the only positional argument. -/
theorem claim_C5_theorem :
    ((addParam emptyParser (tok "g")).bind fun p =>
        parse p [tok "-d", tok "-f", tok "123", tok "-g", tok "456", tok "-e"]
          PREFER_FLAG_FOR_UNREG_OPTION).map
      (fun r => (flagQuery r (tok "d"), flagQuery r (tok "f"), flagQuery r (tok "e"),
                 paramQuery r (tok "f"), paramQuery r (tok "g"), r.pos_args))
      = some (some true, some true, some true, some StrStream.bad,
              some (StrStream.ok (tok "456")), [tok "123"]) := by
  rfl

/-- Claim C6: when the queried name trims to a name that is present in
params_, the default-value query returns a stream over the stored raw
text (identical to the plain query, so the default value plays no role
and any later extraction behaves as on the raw text); the default is
substituted only when the trimmed name is absent. -/
theorem claim_C6_theorem (p : Parser) (name n v defVal : Str)
    (htrim : trimLeadingDashes name = some n) :
    (mapFind p.params n = some v →
       paramQueryDef p name defVal = some (StrStream.ok v) ∧
       paramQueryDef p name defVal = paramQuery p name) ∧
    (mapFind p.params n = none →
       paramQueryDef p name defVal = some (StrStream.ok defVal)) := by
  have hne : name.isEmpty = false := by
    cases name with
    | nil => simp [trimLeadingDashes, findFirstNotOf] at htrim
    | cons c x => rfl
  constructor
  · intro hv
    constructor
    · unfold paramQueryDef
      simp [hne, htrim, hv]
    · unfold paramQueryDef paramQuery
      simp [hne, htrim, hv]
  · intro hv
    unfold paramQueryDef
    simp [hne, htrim, hv]

/-- Claim C6 witness: the theorem applied to a parser storing the
non-numeric value B under the name c, queried with the default 7: the
stream carries B, not the default. -/
theorem claim_C6_witness :
    paramQueryDef sampleParser (tok "c") (tok "7") = some (StrStream.ok (tok "B")) ∧
    paramQueryDef sampleParser (tok "c") (tok "7") = paramQuery sampleParser (tok "c") :=
  (claim_C6_theorem sampleParser (tok "c") (tok "c") (tok "B") (tok "7")
    (by decide)).1 (by decide)

/-- Claim C7 counterexample: for the name x equal to the empty string the
parameter queries do not coincide across dash counts: querying the empty
name yields a failed stream while querying the single dash raises
std::out_of_range (modelled none). -/
theorem claim_C7_counterexample :
    paramQuery emptyParser (tok "") = some StrStream.bad ∧
    paramQuery emptyParser (tok "-") = none ∧
    paramQuery emptyParser (tok "-") ≠ paramQuery emptyParser (tok "") := by
  decide

/-- Claim C7 (amended): for every parser state, the flag query is
invariant under prepending one, two or three dashes to any name, and for
every nonempty name so is the parameter query: all dash variants refer to
the same logical name. -/
theorem claim_C7_theorem (p : Parser) (x : Str) :
    (flagQuery p ('-' :: x) = flagQuery p x ∧
     flagQuery p ('-' :: '-' :: x) = flagQuery p x ∧
     flagQuery p ('-' :: '-' :: '-' :: x) = flagQuery p x) ∧
    (x ≠ [] →
       paramQuery p ('-' :: x) = paramQuery p x ∧
       paramQuery p ('-' :: '-' :: x) = paramQuery p x ∧
       paramQuery p ('-' :: '-' :: '-' :: x) = paramQuery p x) := by
  have t1 : trimLeadingDashes ('-' :: x) = trimLeadingDashes x := trim_cons_dash x
  have t2 : trimLeadingDashes ('-' :: '-' :: x) = trimLeadingDashes x := by
    rw [trim_cons_dash, t1]
  have t3 : trimLeadingDashes ('-' :: '-' :: '-' :: x) = trimLeadingDashes x := by
    rw [trim_cons_dash, t2]
  constructor
  · refine ⟨?_, ?_, ?_⟩
    · unfold flagQuery
      rw [t1]
    · unfold flagQuery
      rw [t2]
    · unfold flagQuery
      rw [t3]
  · intro hx
    have hxe : x.isEmpty = false := by
      cases x with
      | nil => exact absurd rfl hx
      | cons c y => rfl
    refine ⟨?_, ?_, ?_⟩
    · unfold paramQuery
      simp only [List.isEmpty_cons, hxe, t1]
    · unfold paramQuery
      simp only [List.isEmpty_cons, hxe, t2]
    · unfold paramQuery
      simp only [List.isEmpty_cons, hxe, t3]

/-- Claim C7 witness: the amended theorem applied to the name x on the
empty parser, with the nonemptiness hypothesis discharged. -/
theorem claim_C7_witness :
    paramQuery emptyParser ('-' :: tok "x") = paramQuery emptyParser (tok "x") ∧
    flagQuery emptyParser ('-' :: tok "x") = flagQuery emptyParser (tok "x") :=
  ⟨((claim_C7_theorem emptyParser (tok "x")).2 (by decide)).1,
   (claim_C7_theorem emptyParser (tok "x")).1.1⟩

/-- Claim C8 (code bug evidence): on the empty name, the parameter query
reports absence with a failed stream as the claim states, but the flag
query does not return false: it raises std::out_of_range (modelled none),
because trim_leading_dashes calls substr(npos) on the empty string. -/
theorem claim_C8_theorem (p : Parser) :
    flagQuery p (tok "") = none ∧ paramQuery p (tok "") = some StrStream.bad :=
  ⟨rfl, rfl⟩

/-- Claim C9 counterexample: two parse calls with identical inputs (token
b, default mode, no registered names) give different positional
arguments depending on an earlier parse call on the same instance:
re-parsing accumulates instead of replacing. -/
theorem claim_C9_counterexample :
    ((parse emptyParser [tok "a"] PREFER_FLAG_FOR_UNREG_OPTION).bind fun p1 =>
        parse p1 [tok "b"] PREFER_FLAG_FOR_UNREG_OPTION).map (fun r => r.pos_args)
      = some [tok "a", tok "b"] ∧
    (parse emptyParser [tok "b"] PREFER_FLAG_FOR_UNREG_OPTION).map (fun r => r.pos_args)
      = some [tok "b"] ∧
    ([tok "a", tok "b"] : List Str) ≠ [tok "b"] := by
  decide

/-- Claim C9 (amended): the outcome of parse is a deterministic function
of the token vector, the mode, the registered names and the previously
accumulated flags, parameters and positional arguments; re-parsing
appends to the prior positional arguments and flags, and parameter
lookups fall back from the prior map to the values recorded by the new
call (so prior state is extended, never replaced). -/
theorem claim_C9_theorem (p : Parser) (toks : List Str) (mode : Nat) (r r0 : Parser)
    (hp : parse p toks mode = some r)
    (h0 : parse (freshWithReg p.registeredParams) toks mode = some r0) :
    r.args = toks ∧ r.registeredParams = p.registeredParams ∧
    r.pos_args = p.pos_args ++ r0.pos_args ∧
    r.flags = p.flags ++ r0.flags ∧
    ∀ k, mapFind r.params k = optFirst (mapFind p.params k) (mapFind r0.params k) := by
  obtain ⟨tr, htr⟩ := parse_some_trace p toks mode r hp
  have htr0 : parseTrace mode (freshWithReg p.registeredParams).registeredParams toks
      = some tr := htr
  obtain ⟨ha, hr, hparams, hpos, hflags⟩ := parse_some_elim p toks mode r tr hp htr
  obtain ⟨ha0, hr0, hparams0, hpos0, hflags0⟩ :=
    parse_some_elim (freshWithReg p.registeredParams) toks mode r0 tr h0 htr0
  refine ⟨ha, hr, ?_, ?_, ?_⟩
  · rw [hpos, hpos0]
    rfl
  · rw [hflags, hflags0]
    rfl
  · intro k
    rw [hparams, hparams0, mapFind_foldl_ins, mapFind_foldl_ins]
    rfl

/-- Claim C9 witness: the amended theorem applied to a parser with
accumulated state in every collection and the single positional token a. -/
theorem claim_C9_witness :
    ({ args := [tok "a"], params := [(tok "k", tok "v")],
       pos_args := [tok "p", tok "a"], flags := [tok "fl"],
       registeredParams := [] } : Parser).pos_args
      = sampleParser2.pos_args
        ++ ({ args := [tok "a"], params := [], pos_args := [tok "a"], flags := [],
              registeredParams := [] } : Parser).pos_args :=
  (claim_C9_theorem sampleParser2 [tok "a"] PREFER_FLAG_FOR_UNREG_OPTION
    { args := [tok "a"], params := [(tok "k", tok "v")],
      pos_args := [tok "p", tok "a"], flags := [tok "fl"], registeredParams := [] }
    { args := [tok "a"], params := [], pos_args := [tok "a"], flags := [],
      registeredParams := [] }
    (by decide) (by decide)).2.2.1

/-- Claim C10: add_param normalizes by stripping leading dashes before
storing, so registering any name is the same as registering its
dash-stripped form (whenever that form exists, that is, the name has at
least one non-dash character). -/
theorem claim_C10_theorem (p : Parser) (x r : Str)
    (h : trimLeadingDashes x = some r) :
    addParam p x = addParam p r := by
  unfold addParam
  rw [h, trim_idem x r h]

/-- Claim C10 witness: registering the double-dashed name is the same as
registering the bare name. -/
theorem claim_C10_witness :
    addParam emptyParser (tok "--g") = addParam emptyParser (tok "g") :=
  claim_C10_theorem emptyParser (tok "--g") (tok "g") (by decide)
